import Mathlib

/-!
Shallow embedding of the core of the `crispr-indel-analyser` repository:
sequence utilities (`src/utils/helpers.py`, `src/crispr_indel_analyser/utils/helpers.py`),
the FASTQ demultiplexer's approximate matcher and read classifier
(`src/demux/fastq_demux.py`), the alignment adapter's degenerate behaviour
(`src/crispr_indel_analyser/analysis/aligner.py`), and the indel analyser
(`src/crispr_indel_analyser/analysis/indel_analyser.py`).

Python strings are modelled as `List Char`, dictionaries as total functions
with default 0 (counters) or `Option`-valued functions (the result summary),
Python ints as `Int`/`Nat`, floats as `ℚ` with round-half-to-even, and the
external parasail alignment capability as an abstract function parameter.
`None` returns of Python functions are modelled with `Option`.
-/

namespace CrisprIndel

/-- The gap character `'-'` used by the aligner. -/
def gapc : Char := '-'

/-- `helpers.hamming_distance`: equal-length Hamming distance, `float('inf')`
(modelled as `⊤` in `WithTop ℕ`) on a length mismatch. -/
def hamming_distance (s1 s2 : List Char) : WithTop ℕ :=
  if s1.length = s2.length then
    (((s1.zip s2).countP (fun p => p.1 ≠ p.2) : ℕ) : WithTop ℕ)
  else ⊤

/-- Complement of one (already upper-cased) nucleotide, as performed by
`str.translate` with the `"ACGT" → "TGCA"` table: other characters unchanged. -/
def complement (c : Char) : Char :=
  if c = 'A' then 'T'
  else if c = 'C' then 'G'
  else if c = 'G' then 'C'
  else if c = 'T' then 'A'
  else c

/-- `helpers.reverse_complement`: upper-case, complement, reverse. -/
def reverse_complement (seq : List Char) : List Char :=
  ((seq.map Char.toUpper).map complement).reverse

/-- Python slice `s[a : a+n]` for a non-negative start: drop `a`, take `n`. -/
def sliceN (s : List Char) (a n : ℕ) : List Char :=
  (s.drop a).take n

/-- Python slice `s[a : b]` with (possibly `-1`-sentinel) integer indices as
used on the results of flank matching; only reached with `0 ≤ a ≤ b`. -/
def pyslice (s : List Char) (a b : ℤ) : List Char :=
  (s.take b.toNat).drop a.toNat

/-- One processed metadata record (`load_and_process_meta_csv` output row):
cleaned sequences plus their reverse complements. -/
structure SampleInfo where
  target : List Char
  target_rc : List Char
  up : List Char
  up_rc : List Char
  down : List Char
  down_rc : List Char
  fp : List Char
  fp_rc : List Char
  rp : List Char
  rp_rc : List Char

/-- `FASTQDemultiplexer._find_subseq_with_mismatch`: all start positions where
`pattern` matches `seq` with Hamming distance at most `mm`. -/
def find_subseq_with_mismatch (mm : ℕ) (seq pattern : List Char) : List ℕ :=
  if pattern.length = 0 ∨ seq.length < pattern.length then []
  else
    (List.range' 0 (seq.length - pattern.length + 1)).filter
      (fun i =>
        decide (hamming_distance (sliceN seq i pattern.length) pattern ≤ (mm : WithTop ℕ)))

/-- The forward-orientation test of `_match_read` for one sample: some `fp`
occurrence strictly before some `rp` occurrence with gap in
`[min_dist, max_dist]`. -/
def forward_pair_found (mm : ℕ) (min_dist max_dist : ℤ) (seq : List Char)
    (info : SampleInfo) : Bool :=
  (find_subseq_with_mismatch mm seq info.fp).any (fun fp_pos =>
    (find_subseq_with_mismatch mm seq info.rp).any (fun rp_pos =>
      decide (fp_pos < rp_pos) &&
        decide (min_dist ≤ (rp_pos : ℤ) - ((fp_pos : ℤ) + info.fp.length) ∧
          (rp_pos : ℤ) - ((fp_pos : ℤ) + info.fp.length) ≤ max_dist)))

/-- The reverse-complement-orientation test of `_match_read` for one sample:
some `rp_rc` occurrence strictly before some `fp_rc` occurrence with gap in
`[min_dist, max_dist]`. -/
def reverse_pair_found (mm : ℕ) (min_dist max_dist : ℤ) (seq : List Char)
    (info : SampleInfo) : Bool :=
  (find_subseq_with_mismatch mm seq info.rp_rc).any (fun rp_rc_pos =>
    (find_subseq_with_mismatch mm seq info.fp_rc).any (fun fp_rc_pos =>
      decide (rp_rc_pos < fp_rc_pos) &&
        decide (min_dist ≤ (fp_rc_pos : ℤ) - ((rp_rc_pos : ℤ) + info.rp_rc.length) ∧
          (fp_rc_pos : ℤ) - ((rp_rc_pos : ℤ) + info.rp_rc.length) ≤ max_dist)))

/-- Whether one sample's primer pair qualifies the read in either orientation
(the body of the single executed iteration of `_match_read`'s loop). -/
def sample_matches (mm : ℕ) (min_dist max_dist : ℤ) (seq : List Char)
    (info : SampleInfo) : Bool :=
  forward_pair_found mm min_dist max_dist seq info ||
    reverse_pair_found mm min_dist max_dist seq info

/-- `FASTQDemultiplexer._match_read`: the `for` loop over `meta_data.items()`
returns on its first iteration (`sample` on a qualifying pair, `"unknown"`
otherwise); with an empty map the loop body never runs and the function
falls through, returning Python `None` (modelled as `none`). -/
def match_read (mm : ℕ) (min_dist max_dist : ℤ) (seq : List Char)
    (meta_data : List (String × SampleInfo)) : Option String :=
  match meta_data with
  | [] => none
  | (sample, info) :: _ =>
    if sample_matches mm min_dist max_dist seq info then some sample
    else some "unknown"

/-- The inner loop of `_match_flanks`: the first position `j` in
`range(up_end, len(seq) - len(down) + 1)` where `down` matches within the
budget. -/
def down_search (mm : ℕ) (seq down : List Char) (up_end : ℕ) : Option ℕ :=
  (List.range' up_end (seq.length + 1 - down.length - up_end)).find?
    (fun j =>
      decide (hamming_distance (sliceN seq j down.length) down ≤ (mm : WithTop ℕ)))

/-- The outer loop of `_match_flanks`: the first `up` occurrence (within the
budget) whose inner `down` search succeeds, together with that search's
result. -/
def up_search (mm : ℕ) (seq up down : List Char) : Option (ℕ × ℕ) :=
  (List.range' 0 (seq.length + 1 - up.length)).findSome? (fun i =>
    if hamming_distance (sliceN seq i up.length) up ≤ (mm : WithTop ℕ) then
      (down_search mm seq down (i + up.length)).map (fun j => (i + up.length, j))
    else none)

/-- `IndelAnalyser._match_flanks`: first `up` occurrence (within the mismatch
budget) admitting a `down` occurrence at or after its end; returns
`(True, up_end, down_start)` or `(False, -1, -1)`. -/
def match_flanks (mm : ℕ) (seq up down : List Char) : Bool × ℤ × ℤ :=
  if up = [] ∨ down = [] then (false, -1, -1)
  else
    match up_search mm seq up down with
    | some (up_end, j) => (true, (up_end : ℤ), (j : ℤ))
    | none => (false, -1, -1)

/-- Mutable per-sample counters and position maps of `IndelAnalyser.analyse`
(the `stats` dict plus the local `del_pos` / `ins_pos` dicts, modelled as
total functions with default 0). -/
structure Stats where
  num_ins : ℕ
  num_del : ℕ
  num_other : ℕ
  num_skip : ℕ
  del_pos : ℕ → ℕ
  ins_pos : String → ℕ

/-- The zero-initialised `stats` / `del_pos` / `ins_pos` of `analyse`. -/
def initial_stats : Stats :=
  { num_ins := 0, num_del := 0, num_other := 0, num_skip := 0,
    del_pos := fun _ => 0, ins_pos := fun _ => 0 }

/-- The `while` loop collecting inserted bases: walk `aligned_ref` from the
first gap and read off the corresponding `aligned_query` characters while the
reference still shows gaps. -/
def collect_inserted : List Char → List Char → List Char
  | a :: ar, q :: aq => if a = gapc then q :: collect_inserted ar aq else []
  | _, _ => []

/-- The `pos_key = f"after:_{start}:{inserted.upper()}"` key of `ins_pos`. -/
def ins_key (start : ℕ) (inserted : List Char) : String :=
  "after:_" ++ toString start ++ ":" ++ String.mk (inserted.map Char.toUpper)

/-- The gap-pattern classification of one aligned pair
(`indel_analyser.py` lines 127–142): deletion when gaps appear only in the
query, insertion when gaps appear only in the reference, other otherwise. -/
def classify_aligned (st : Stats) (aligned_query aligned_ref : List Char) :
    Stats :=
  if gapc ∈ aligned_query ∧ gapc ∉ aligned_ref then
    let ref_pos := aligned_query.indexOf gapc
    { st with
      del_pos := fun k => if k = ref_pos then st.del_pos k + 1 else st.del_pos k,
      num_del := st.num_del + 1 }
  else if gapc ∈ aligned_ref ∧ gapc ∉ aligned_query then
    let start := aligned_ref.indexOf gapc
    let inserted := collect_inserted (aligned_ref.drop start) (aligned_query.drop start)
    let pos_key := ins_key start inserted
    { st with
      ins_pos := fun k => if k = pos_key then st.ins_pos k + 1 else st.ins_pos k,
      num_ins := st.num_ins + 1 }
  else { st with num_other := st.num_other + 1 }

/-- `ParasailAligner.align_global` with the parasail call abstracted as
`alignFn` (`none` models an exception or a missing traceback): degenerate
inputs short-circuit to a gap padding, otherwise the capability's answer is
used, with the unaligned pair as the ultimate fallback. -/
def align_global (alignFn : List Char → List Char → Option (List Char × List Char))
    (query ref : List Char) : List Char × List Char :=
  if query = [] ∨ ref = [] then
    (if query = [] then List.replicate ref.length gapc else query,
     if ref = [] then List.replicate query.length gapc else ref)
  else
    match alignFn query ref with
    | some p => p
    | none => (query, ref)

/-- One iteration of `analyse`'s per-read loop: flank-match the read and its
reverse complement, skip on double failure, otherwise extract the window,
align it to `target` and classify the gap pattern. -/
def process_read (alignFn : List Char → List Char → Option (List Char × List Char))
    (mm : ℕ) (up down target : List Char) (st : Stats) (seq : List Char) : Stats :=
  let rc_seq := reverse_complement seq
  let r := match_flanks mm seq up down
  let rc_r := match_flanks mm rc_seq up down
  if r.1 = false ∧ rc_r.1 = false then { st with num_skip := st.num_skip + 1 }
  else
    let window_seq := if r.1 then pyslice seq r.2.1 r.2.2 else pyslice rc_seq rc_r.2.1 rc_r.2.2
    let ap := align_global alignFn window_seq target
    classify_aligned st ap.1 ap.2

/-- The finalised per-sample record: counters, percentages and position maps,
as assembled into the `stats` dict before persistence. -/
structure FinalStats where
  num_ins : ℕ
  num_del : ℕ
  num_other : ℕ
  num_skip : ℕ
  per_ins : ℚ
  per_del : ℚ
  pos_ins : String → ℕ
  pos_del : ℕ → ℕ

/-- Python `round` ties-to-even on an exact rational, to integer precision. -/
def round_half_even (x : ℚ) : ℤ :=
  if x - ⌊x⌋ < 1/2 then ⌊x⌋
  else if (1 : ℚ)/2 < x - ⌊x⌋ then ⌊x⌋ + 1
  else if ⌊x⌋ % 2 = 0 then ⌊x⌋ else ⌊x⌋ + 1

/-- Python `round(x, 2)` on an exact rational. -/
def round2 (x : ℚ) : ℚ := (round_half_even (x * 100) : ℚ) / 100

/-- The percentage finalisation of `analyse` (lines 145–163): `total` counts
classified (non-skip) reads; percentages are 0 when `total` is 0. -/
def finalize_stats (st : Stats) : FinalStats :=
  let total := st.num_ins + st.num_del + st.num_other
  { num_ins := st.num_ins, num_del := st.num_del,
    num_other := st.num_other, num_skip := st.num_skip,
    per_ins := if total = 0 then 0 else round2 ((st.num_ins : ℚ) / (total : ℚ) * 100),
    per_del := if total = 0 then 0 else round2 ((st.num_del : ℚ) / (total : ℚ) * 100),
    pos_ins := st.ins_pos, pos_del := st.del_pos }

/-- The persistence tail of `analyse` (lines 166–181): on a write failure the
method warns and returns `None` before `self.result_summary[sample_id]` is
assigned; only a successful write records the stats in the summary. -/
def persist_and_record (write_ok : Bool) (sample_id : String) (st : FinalStats)
    (result_summary : String → Option FinalStats) :
    Option FinalStats × (String → Option FinalStats) :=
  if write_ok then
    (some st, fun k => if k = sample_id then some st else result_summary k)
  else (none, result_summary)

/-- `IndelAnalyser.analyse` for one sample whose metadata and FASTQ are
present: fold the per-read loop over the reads, finalise the percentages,
then persist (with `write_ok` modelling whether the `try` block succeeds)
and record into `result_summary`. -/
def analyse_sample (alignFn : List Char → List Char → Option (List Char × List Char))
    (mm : ℕ) (info : SampleInfo) (reads : List (List Char)) (write_ok : Bool)
    (sample_id : String) (result_summary : String → Option FinalStats) :
    Option FinalStats × (String → Option FinalStats) :=
  let st := reads.foldl (process_read alignFn mm info.up info.down info.target) initial_stats
  persist_and_record write_ok sample_id (finalize_stats st) result_summary

/-- A sample whose primers do not occur in `ex_seq_c1` (concrete witness data). -/
def ex_info_nomatch : SampleInfo :=
  { target := [], target_rc := [], up := [], up_rc := [], down := [], down_rc := [],
    fp := "GGGGGG".toList, fp_rc := "CCCCCC".toList,
    rp := "CCCCCC".toList, rp_rc := "GGGGGG".toList }

/-- A sample whose primer pair brackets the tail of `ex_seq_c1` with gap 25. -/
def ex_info_match : SampleInfo :=
  { target := [], target_rc := [], up := [], up_rc := [], down := [], down_rc := [],
    fp := "AGGTCA".toList, fp_rc := "TGACCT".toList,
    rp := "CTAGCT".toList, rp_rc := "AGCTAG".toList }

/-- A concrete read: `fp` of `ex_info_match` at 0, its `rp` at 31 (gap 25). -/
def ex_seq_c1 : List Char := "AGGTCAAAAAAAAAAAAAAAAAAAAAAAAAAAAAACTAGCT".toList

/-- Concrete counter values used in the percentage witness. -/
def ex_stats : Stats :=
  { initial_stats with num_ins := 1, num_del := 2 }

/-- Modelled from the claim's wording (second definition, for comparison with
the code's `while` loop): the query characters of the maximal gap run of
`aligned_ref` starting at its first gap index. -/
def spec_inserted_run (aligned_query aligned_ref : List Char) : List Char :=
  (aligned_query.drop (aligned_ref.indexOf gapc)).take
    ((aligned_ref.drop (aligned_ref.indexOf gapc)).takeWhile
      (fun c => decide (c = gapc))).length

end CrisprIndel

namespace CrisprIndel

/-! ### Helper lemmas -/

theorem zip_countP_ne_comm (s1 s2 : List Char) :
    (s1.zip s2).countP (fun p => decide (p.1 ≠ p.2)) =
      (s2.zip s1).countP (fun p => decide (p.1 ≠ p.2)) := by
  induction s1 generalizing s2 with
  | nil => simp
  | cons a t1 ih =>
    cases s2 with
    | nil => simp
    | cons b t2 =>
      simp only [List.zip_cons_cons, List.countP_cons, ih t2]
      congr 1
      by_cases hab : a = b
      · subst hab; simp
      · simp [hab, Ne.symm hab]

theorem zip_countP_ne_self (s : List Char) :
    (s.zip s).countP (fun p => decide (p.1 ≠ p.2)) = 0 := by
  induction s with
  | nil => rfl
  | cons a t ih =>
    simp only [List.zip_cons_cons, List.countP_cons, ih]
    simp

theorem zip_countP_ne_eq_range (s1 s2 : List Char) (h : s1.length = s2.length) :
    (s1.zip s2).countP (fun p => decide (p.1 ≠ p.2)) =
      (List.range s1.length).countP
        (fun i => decide (s1.getD i 'A' ≠ s2.getD i 'A')) := by
  induction s1 generalizing s2 with
  | nil => simp
  | cons a t1 ih =>
    cases s2 with
    | nil => simp at h
    | cons b t2 =>
      have h' : t1.length = t2.length := by simpa using h
      have hcomp :
          ((fun i => decide ((a :: t1).getD i 'A' ≠ (b :: t2).getD i 'A')) ∘ Nat.succ) =
            (fun i => decide (t1.getD i 'A' ≠ t2.getD i 'A')) := by
        funext i
        simp only [Function.comp_apply, List.getD_cons_succ]
      rw [List.zip_cons_cons, List.countP_cons, List.length_cons,
        List.range_succ_eq_map, List.countP_cons, List.countP_map, hcomp, ih t2 h']
      simp [List.getD_cons_zero]

/-! ### Claim theorems -/

/-- Claim C8: for equal-length strings, `hamming_distance` counts the differing
positions; it is symmetric; it is zero on identical strings; on a length
mismatch it is the infinite (incomparable) distance `⊤`. -/
theorem hamming_distance_spec (s1 s2 : List Char) :
    (s1.length = s2.length →
      hamming_distance s1 s2 =
        (((List.range s1.length).countP
            (fun i => decide (s1.getD i 'A' ≠ s2.getD i 'A')) : ℕ) : WithTop ℕ)) ∧
    hamming_distance s1 s2 = hamming_distance s2 s1 ∧
    hamming_distance s1 s1 = 0 ∧
    (s1.length ≠ s2.length → hamming_distance s1 s2 = ⊤) := by
  refine ⟨?_, ?_, ?_, ?_⟩
  · intro h
    rw [hamming_distance, if_pos h, zip_countP_ne_eq_range s1 s2 h]
  · by_cases h : s1.length = s2.length
    · rw [hamming_distance, hamming_distance, if_pos h, if_pos h.symm,
        zip_countP_ne_comm s1 s2]
    · rw [hamming_distance, hamming_distance, if_neg h,
        if_neg (fun hh => h hh.symm)]
  · rw [hamming_distance, if_pos rfl, zip_countP_ne_self s1]
    rfl
  · intro h
    rw [hamming_distance, if_neg h]

/-- Witness for C8 at concrete strings of equal length. -/
theorem hamming_distance_spec_witness :
    hamming_distance "ACGT".toList "ACCT".toList =
      ((((List.range ("ACGT".toList).length).countP
          (fun i => decide (("ACGT".toList).getD i 'A' ≠ ("ACCT".toList).getD i 'A'))) : ℕ) :
        WithTop ℕ) :=
  (hamming_distance_spec "ACGT".toList "ACCT".toList).1 (by decide)

/-- Claim C2 (evaluated at the failing input): with an empty
sample-specification map, `_match_read`'s loop body never runs and the
function returns Python `None` rather than a sample id or `"unknown"`. -/
theorem match_read_empty_meta_returns_none (mm : ℕ) (min_dist max_dist : ℤ)
    (seq : List Char) :
    match_read mm min_dist max_dist seq [] = none ∧
      ∀ s : String, match_read mm min_dist max_dist seq [] ≠ some s :=
  ⟨rfl, fun _ h => Option.noConfusion h⟩

/-- Claim C1: whenever the first configured sample's primer pair qualifies in
neither orientation, `_match_read` returns `"unknown"` immediately, and its
result never depends on the samples after the first. -/
theorem match_read_first_sample_only (mm : ℕ) (min_dist max_dist : ℤ)
    (seq : List Char) (sample : String) (info : SampleInfo)
    (rest rest' : List (String × SampleInfo)) :
    (sample_matches mm min_dist max_dist seq info = false →
      match_read mm min_dist max_dist seq ((sample, info) :: rest) = some "unknown") ∧
    match_read mm min_dist max_dist seq ((sample, info) :: rest) =
      match_read mm min_dist max_dist seq ((sample, info) :: rest') := by
  constructor
  · intro h
    simp [match_read, sample_matches] at h ⊢
    simp [h.1, h.2]
  · rfl

/-- Witness for C1: the first sample's primers are absent, the second sample's
primer pair matches the read with gap 25 ∈ [20, 200], yet the result is
`"unknown"`. -/
theorem match_read_first_sample_only_witness :
    sample_matches 0 20 200 ex_seq_c1 ex_info_nomatch = false ∧
    sample_matches 0 20 200 ex_seq_c1 ex_info_match = true ∧
    match_read 0 20 200 ex_seq_c1
        [("s1", ex_info_nomatch), ("s2", ex_info_match)] = some "unknown" :=
  ⟨by decide, by decide,
    (match_read_first_sample_only 0 20 200 ex_seq_c1 "s1" ex_info_nomatch
      [("s2", ex_info_match)] []).1 (by decide)⟩

/-- Claim C9: on degenerate input (either side empty) `align_global` pairs the
non-empty sequence with a same-length all-gap string, the two components have
equal length, and the result does not consult the alignment capability. -/
theorem align_global_degenerate
    (f g : List Char → List Char → Option (List Char × List Char))
    (query ref : List Char) :
    (query = [] → align_global f query ref = (List.replicate ref.length gapc, ref)) ∧
    (ref = [] → align_global f query ref = (query, List.replicate query.length gapc)) ∧
    (query = [] ∨ ref = [] →
      (align_global f query ref).1.length = (align_global f query ref).2.length ∧
      align_global f query ref = align_global g query ref) := by
  refine ⟨?_, ?_, ?_⟩
  · rintro rfl
    by_cases hr : ref = []
    · subst hr; simp [align_global]
    · simp [align_global, hr]
  · rintro rfl
    by_cases hq : query = []
    · subst hq; simp [align_global]
    · simp [align_global, hq]
  · intro h
    constructor
    · rcases h with rfl | rfl
      · by_cases hr : ref = [] <;> simp [align_global, hr]
      · by_cases hq : query = [] <;> simp [align_global, hq]
    · rcases h with rfl | rfl
      · simp [align_global]
      · simp [align_global]

/-- Witness for C9 at an empty query and the reference `"ACG"`. -/
theorem align_global_degenerate_witness :
    align_global (fun _ _ => none) [] "ACG".toList =
      (List.replicate ("ACG".toList).length gapc, "ACG".toList) :=
  (align_global_degenerate (fun _ _ => none) (fun _ _ => some ([], []))
    [] "ACG".toList).1 rfl

/-- Claim C3 counterexample: after a failed write (`write_ok = false`) on a
freshly analysed sample, `analyse` returns `None` and the sample's statistics
are NOT retained in `result_summary` — the summary still has no entry for the
sample, so nothing survives for the Aggregator. -/
theorem analyse_write_failure_not_retained :
    (analyse_sample (fun _ _ => none) 1 ex_info_match ["ACGT".toList] false "s1"
        (fun _ => none)).1 = none ∧
    ∀ fs : FinalStats,
      (analyse_sample (fun _ _ => none) 1 ex_info_match ["ACGT".toList] false "s1"
          (fun _ => none)).2 "s1" ≠ some fs :=
  ⟨rfl, fun _ h => Option.noConfusion h⟩

/-- Claim C3 amended: on a write failure `analyse` warns and returns `None`,
and the in-memory `result_summary` is left unchanged — the sample's computed
statistics are lost rather than retained for aggregation. -/
theorem analyse_write_failure_returns_none
    (alignFn : List Char → List Char → Option (List Char × List Char))
    (mm : ℕ) (info : SampleInfo) (reads : List (List Char)) (sample_id : String)
    (result_summary : String → Option FinalStats) :
    analyse_sample alignFn mm info reads false sample_id result_summary =
      (none, result_summary) := rfl

/-- Claim C6: the approximate matcher returns exactly the strictly increasing
list of all start positions within bounds whose window is within the Hamming
budget of the pattern, and the empty list for an empty or over-long pattern. -/
theorem find_subseq_with_mismatch_spec (mm : ℕ) (seq pattern : List Char) :
    ((pattern = [] ∨ seq.length < pattern.length) →
      find_subseq_with_mismatch mm seq pattern = []) ∧
    List.Sorted (· < ·) (find_subseq_with_mismatch mm seq pattern) ∧
    (pattern ≠ [] → pattern.length ≤ seq.length →
      ∀ i : ℕ,
        i ∈ find_subseq_with_mismatch mm seq pattern ↔
          (i ≤ seq.length - pattern.length ∧
            hamming_distance (sliceN seq i pattern.length) pattern ≤
              (mm : WithTop ℕ))) := by
  refine ⟨?_, ?_, ?_⟩
  · rintro (rfl | h)
    · simp [find_subseq_with_mismatch]
    · simp [find_subseq_with_mismatch, h, Nat.not_le.mpr h]
  · rw [find_subseq_with_mismatch]
    split
    · exact List.sorted_nil
    · exact List.Pairwise.filter _ (List.pairwise_lt_range' 0 _)
  · intro hp hl i
    have h0 : ¬(pattern.length = 0 ∨ seq.length < pattern.length) := by
      rintro (hh | hh)
      · exact hp (List.length_eq_zero.mp hh)
      · exact absurd hh (not_lt.mpr hl)
    rw [find_subseq_with_mismatch, if_neg h0]
    simp only [List.mem_filter, List.mem_range'_1, decide_eq_true_iff]
    constructor
    · rintro ⟨⟨-, hlt⟩, hd⟩
      exact ⟨by omega, hd⟩
    · rintro ⟨hle, hd⟩
      exact ⟨⟨Nat.zero_le _, by omega⟩, hd⟩

/-- Witness for C6 at the spec's own example `find_all("NNNAGGTCANNN", "AGGTCA", 0)`. -/
theorem find_subseq_with_mismatch_spec_witness :
    (3 ∈ find_subseq_with_mismatch 0 "NNNAGGTCANNN".toList "AGGTCA".toList ↔
      (3 ≤ ("NNNAGGTCANNN".toList).length - ("AGGTCA".toList).length ∧
        hamming_distance (sliceN "NNNAGGTCANNN".toList 3 ("AGGTCA".toList).length)
            "AGGTCA".toList ≤ ((0 : ℕ) : WithTop ℕ))) :=
  (find_subseq_with_mismatch_spec 0 "NNNAGGTCANNN".toList "AGGTCA".toList).2.2
    (by decide) (by decide) 3

theorem collect_inserted_eq_take (l q : List Char) (h : l.length ≤ q.length) :
    collect_inserted l q =
      q.take (l.takeWhile (fun c => decide (c = gapc))).length := by
  induction l generalizing q with
  | nil => simp [collect_inserted]
  | cons a t ih =>
    cases q with
    | nil => simp at h
    | cons b tq =>
      have h' : t.length ≤ tq.length := by simpa using h
      by_cases ha : a = gapc
      · simp [collect_inserted, ha, List.takeWhile_cons, ih tq h']
      · simp [collect_inserted, ha, List.takeWhile_cons]

/-- Claim C4: gap only in the query classifies the read as a deletion at the
first gap index; gap only in the reference classifies it as an insertion keyed
by the run start and the uppercased inserted bases of the maximal gap run;
gaps in both or in neither count as other; exactly one of the three counters
changes, by exactly 1, and `num_skip` never changes here. -/
theorem classify_aligned_spec (st : Stats) (aq ar : List Char)
    (h : aq.length = ar.length) :
    (gapc ∈ aq ∧ gapc ∉ ar →
      (classify_aligned st aq ar).num_del = st.num_del + 1 ∧
      (classify_aligned st aq ar).num_ins = st.num_ins ∧
      (classify_aligned st aq ar).num_other = st.num_other ∧
      (classify_aligned st aq ar).del_pos (aq.indexOf gapc) =
        st.del_pos (aq.indexOf gapc) + 1 ∧
      (∀ k, k ≠ aq.indexOf gapc →
        (classify_aligned st aq ar).del_pos k = st.del_pos k) ∧
      (classify_aligned st aq ar).ins_pos = st.ins_pos) ∧
    (gapc ∈ ar ∧ gapc ∉ aq →
      (classify_aligned st aq ar).num_ins = st.num_ins + 1 ∧
      (classify_aligned st aq ar).num_del = st.num_del ∧
      (classify_aligned st aq ar).num_other = st.num_other ∧
      (classify_aligned st aq ar).ins_pos
          (ins_key (ar.indexOf gapc) (spec_inserted_run aq ar)) =
        st.ins_pos (ins_key (ar.indexOf gapc) (spec_inserted_run aq ar)) + 1 ∧
      (∀ k, k ≠ ins_key (ar.indexOf gapc) (spec_inserted_run aq ar) →
        (classify_aligned st aq ar).ins_pos k = st.ins_pos k) ∧
      (classify_aligned st aq ar).del_pos = st.del_pos) ∧
    ((gapc ∈ aq ↔ gapc ∈ ar) →
      classify_aligned st aq ar = { st with num_other := st.num_other + 1 }) ∧
    ((classify_aligned st aq ar).num_ins + (classify_aligned st aq ar).num_del +
        (classify_aligned st aq ar).num_other =
      st.num_ins + st.num_del + st.num_other + 1) ∧
    (classify_aligned st aq ar).num_skip = st.num_skip := by
  have hcollect :
      collect_inserted (ar.drop (ar.indexOf gapc)) (aq.drop (ar.indexOf gapc)) =
        spec_inserted_run aq ar := by
    rw [collect_inserted_eq_take]
    · rfl
    · simp [h]
  refine ⟨?_, ?_, ?_, ?_, ?_⟩
  · rintro ⟨h1, h2⟩
    simp [classify_aligned, h1, h2]
  · rintro ⟨h1, h2⟩
    simp [classify_aligned, h1, h2, hcollect]
  · intro hiff
    by_cases hq : gapc ∈ aq
    · have hr : gapc ∈ ar := hiff.mp hq
      simp [classify_aligned, hq, hr]
    · have hr : gapc ∉ ar := fun hh => hq (hiff.mpr hh)
      simp [classify_aligned, hq, hr]
  · by_cases c1 : gapc ∈ aq ∧ gapc ∉ ar
    · simp [classify_aligned, c1.1, c1.2]
      omega
    · by_cases c2 : gapc ∈ ar ∧ gapc ∉ aq
      · have hq : gapc ∉ aq := c2.2
        simp [classify_aligned, c2.1, hq]
        omega
      · rw [classify_aligned, if_neg c1, if_neg c2]
        simp
        omega
  · by_cases c1 : gapc ∈ aq ∧ gapc ∉ ar
    · simp [classify_aligned, c1.1, c1.2]
    · by_cases c2 : gapc ∈ ar ∧ gapc ∉ aq
      · simp [classify_aligned, c2.1, c2.2]
      · rw [classify_aligned, if_neg c1, if_neg c2]

theorem find?_range'_eq_some {p : ℕ → Bool} {s n j : ℕ}
    (h : (List.range' s n).find? p = some j) :
    s ≤ j ∧ j < s + n ∧ p j = true ∧ ∀ k, s ≤ k → k < j → p k = false := by
  induction n generalizing s with
  | zero => simp at h
  | succ n ih =>
    rw [List.range'_succ, List.find?_cons] at h
    cases hps : p s with
    | true =>
      rw [hps] at h
      simp only [Option.some.injEq] at h
      subst h
      exact ⟨le_refl _, by omega, hps, fun k hk1 hk2 => absurd hk1 (by omega)⟩
    | false =>
      rw [hps] at h
      obtain ⟨h1, h2, h3, h4⟩ := ih h
      refine ⟨by omega, by omega, h3, fun k hk1 hk2 => ?_⟩
      rcases Nat.eq_or_lt_of_le hk1 with rfl | hk1'
      · exact hps
      · exact h4 k hk1' hk2

theorem findSome?_range'_eq_some {α : Type} {f : ℕ → Option α} {s n : ℕ} {b : α}
    (h : (List.range' s n).findSome? f = some b) :
    ∃ i, s ≤ i ∧ i < s + n ∧ f i = some b ∧ ∀ k, s ≤ k → k < i → f k = none := by
  induction n generalizing s with
  | zero => simp at h
  | succ n ih =>
    rw [List.range'_succ, List.findSome?_cons] at h
    cases hfs : f s with
    | some c =>
      rw [hfs] at h
      simp only [Option.some.injEq] at h
      subst h
      exact ⟨s, le_refl _, by omega, hfs,
        fun k hk1 hk2 => absurd hk1 (by omega)⟩
    | none =>
      rw [hfs] at h
      simp only [] at h
      obtain ⟨i, h1, h2, h3, h4⟩ := ih h
      refine ⟨i, by omega, by omega, h3, fun k hk1 hk2 => ?_⟩
      rcases Nat.eq_or_lt_of_le hk1 with rfl | hk1'
      · exact hfs
      · exact h4 k hk1' hk2

theorem match_flanks_false_char (mm : ℕ) (seq up down : List Char) (ue ds : ℤ)
    (h : match_flanks mm seq up down = (false, ue, ds)) :
    ue = -1 ∧ ds = -1 := by
  by_cases hne : up = [] ∨ down = []
  · rw [match_flanks, if_pos hne] at h
    simp only [Prod.mk.injEq] at h
    exact ⟨h.2.1.symm, h.2.2.symm⟩
  · rw [match_flanks, if_neg hne] at h
    cases hfs : up_search mm seq up down with
    | some p =>
      obtain ⟨up_end, j⟩ := p
      rw [hfs] at h
      simp at h
    | none =>
      rw [hfs] at h
      simp only [Prod.mk.injEq] at h
      exact ⟨h.2.1.symm, h.2.2.symm⟩

theorem match_flanks_true_char (mm : ℕ) (seq up down : List Char) (ue ds : ℤ)
    (h : match_flanks mm seq up down = (true, ue, ds)) :
    ∃ i j : ℕ,
      ue = (i : ℤ) + up.length ∧ ds = (j : ℤ) ∧
      up ≠ [] ∧ down ≠ [] ∧
      i + up.length ≤ seq.length ∧
      hamming_distance (sliceN seq i up.length) up ≤ (mm : WithTop ℕ) ∧
      i + up.length ≤ j ∧ j + down.length ≤ seq.length ∧
      hamming_distance (sliceN seq j down.length) down ≤ (mm : WithTop ℕ) ∧
      (∀ i', i' < i →
        hamming_distance (sliceN seq i' up.length) up ≤ (mm : WithTop ℕ) →
        ∀ j', i' + up.length ≤ j' → j' + down.length ≤ seq.length →
          ¬ hamming_distance (sliceN seq j' down.length) down ≤ (mm : WithTop ℕ)) ∧
      (∀ j', i + up.length ≤ j' → j' < j →
        ¬ hamming_distance (sliceN seq j' down.length) down ≤ (mm : WithTop ℕ)) := by
  by_cases hne : up = [] ∨ down = []
  · rw [match_flanks, if_pos hne] at h
    simp at h
  · rw [match_flanks, if_neg hne] at h
    push_neg at hne
    cases hfs : up_search mm seq up down with
    | none =>
      rw [hfs] at h
      simp at h
    | some p =>
      obtain ⟨up_end, j0⟩ := p
      rw [hfs] at h
      simp only [Prod.mk.injEq] at h
      rw [up_search] at hfs
      obtain ⟨i, -, hilt, hfi, hmin⟩ := findSome?_range'_eq_some hfs
      rw [Nat.zero_add] at hilt
      by_cases hup : hamming_distance (sliceN seq i up.length) up ≤ (mm : WithTop ℕ)
      · rw [if_pos hup, down_search, Option.map_eq_some'] at hfi
        obtain ⟨j, hfind, hpair⟩ := hfi
        obtain ⟨hj1, hj2, hjp, hjmin⟩ := find?_range'_eq_some hfind
        simp only [Prod.mk.injEq] at hpair
        refine ⟨i, j, ?_, ?_, hne.1, hne.2, by omega, hup, hj1, by omega,
          decide_eq_true_iff.mp hjp, ?_, ?_⟩
        · rw [← h.2.1, ← hpair.1]
          push_cast
          ring
        · rw [← h.2.2, ← hpair.2]
        · intro i' hi' hup' j' hj'1 hj'2 hd'
          have hfi' := hmin i' (Nat.zero_le _) hi'
          rw [if_pos hup', down_search, Option.map_eq_none'] at hfi'
          have hnone := List.find?_eq_none.mp hfi' j'
            (List.mem_range'_1.mpr ⟨hj'1, by omega⟩)
          simp only [decide_eq_true_eq] at hnone
          exact hnone hd'
        · intro j' hj'1 hj'2 hd'
          have hfalse := hjmin j' hj'1 hj'2
          simp only [decide_eq_false_iff_not] at hfalse
          exact hfalse hd'
      · rw [if_neg hup] at hfi
        simp at hfi

/-- Claim C10: the `_match_flanks` result triple is internally consistent:
unmatched results carry the `-1` sentinels, and matched results satisfy
`len(up) ≤ up_end ≤ down_start ≤ len(seq) − len(down)`, so the caller's
window slice `seq[up_end:down_start]` is a well-defined (possibly empty)
substring strictly between the two anchors. -/
theorem match_flanks_invariant (mm : ℕ) (seq up down : List Char) (ue ds : ℤ) :
    (match_flanks mm seq up down = (false, ue, ds) → ue = -1 ∧ ds = -1) ∧
    (match_flanks mm seq up down = (true, ue, ds) →
      (up.length : ℤ) ≤ ue ∧ ue ≤ ds ∧ ds ≤ (seq.length : ℤ) - down.length) := by
  constructor
  · exact match_flanks_false_char mm seq up down ue ds
  · intro h
    obtain ⟨i, j, h1, h2, -, -, -, -, h7, h8, -, -, -⟩ :=
      match_flanks_true_char mm seq up down ue ds h
    subst h1
    subst h2
    refine ⟨?_, ?_, ?_⟩ <;> push_cast <;> omega

/-- Witness for C10 on a concrete matched read: `up="AA"` ends at 4,
`down="GG"` starts at 4 in `"TTAAGGCCGG"` (length 10). -/
theorem match_flanks_invariant_witness :
    ((("AA".toList).length : ℤ) ≤ 4 ∧ (4 : ℤ) ≤ 4 ∧
      (4 : ℤ) ≤ (("TTAAGGCCGG".toList).length : ℤ) - ("GG".toList).length) :=
  (match_flanks_invariant 0 "TTAAGGCCGG".toList "AA".toList "GG".toList 4 4).2
    (by decide)

/-- Claim C5: `_match_flanks` fails unconditionally on an empty flank, and a
reported match is the first qualifying pair in left-to-right, inside-out
order: `up_end` ends the first `up` occurrence (within the budget) that
admits any qualifying `down` occurrence, and `down_start` is the first
position at or after `up_end` where `down` occurs within the budget. -/
theorem match_flanks_first_pair (mm : ℕ) (seq up down : List Char) :
    ((up = [] ∨ down = []) → match_flanks mm seq up down = (false, -1, -1)) ∧
    (∀ ue ds : ℤ, match_flanks mm seq up down = (true, ue, ds) →
      ∃ i j : ℕ,
        ue = (i : ℤ) + up.length ∧ ds = (j : ℤ) ∧
        i + up.length ≤ seq.length ∧
        hamming_distance (sliceN seq i up.length) up ≤ (mm : WithTop ℕ) ∧
        i + up.length ≤ j ∧ j + down.length ≤ seq.length ∧
        hamming_distance (sliceN seq j down.length) down ≤ (mm : WithTop ℕ) ∧
        (∀ i', i' < i →
          hamming_distance (sliceN seq i' up.length) up ≤ (mm : WithTop ℕ) →
          ∀ j', i' + up.length ≤ j' → j' + down.length ≤ seq.length →
            ¬ hamming_distance (sliceN seq j' down.length) down ≤ (mm : WithTop ℕ)) ∧
        (∀ j', i + up.length ≤ j' → j' < j →
          ¬ hamming_distance (sliceN seq j' down.length) down ≤ (mm : WithTop ℕ))) := by
  constructor
  · intro h
    rw [match_flanks, if_pos h]
  · intro ue ds h
    obtain ⟨i, j, h1, h2, -, -, h5, h6, h7, h8, h9, h10, h11⟩ :=
      match_flanks_true_char mm seq up down ue ds h
    exact ⟨i, j, h1, h2, h5, h6, h7, h8, h9, h10, h11⟩

/-- Witness for C5 on `"TTAAGGCCGG"` with `up="AA"`, `down="GG"`: the match
`(true, 4, 4)` is produced by the first qualifying inside-out pair. -/
theorem match_flanks_first_pair_witness :
    ∃ i j : ℕ,
      (4 : ℤ) = (i : ℤ) + ("AA".toList).length ∧ (4 : ℤ) = (j : ℤ) ∧
      i + ("AA".toList).length ≤ ("TTAAGGCCGG".toList).length ∧
      hamming_distance (sliceN "TTAAGGCCGG".toList i ("AA".toList).length)
          "AA".toList ≤ ((0 : ℕ) : WithTop ℕ) ∧
      i + ("AA".toList).length ≤ j ∧
      j + ("GG".toList).length ≤ ("TTAAGGCCGG".toList).length ∧
      hamming_distance (sliceN "TTAAGGCCGG".toList j ("GG".toList).length)
          "GG".toList ≤ ((0 : ℕ) : WithTop ℕ) ∧
      (∀ i', i' < i →
        hamming_distance (sliceN "TTAAGGCCGG".toList i' ("AA".toList).length)
            "AA".toList ≤ ((0 : ℕ) : WithTop ℕ) →
        ∀ j', i' + ("AA".toList).length ≤ j' →
          j' + ("GG".toList).length ≤ ("TTAAGGCCGG".toList).length →
            ¬ hamming_distance (sliceN "TTAAGGCCGG".toList j' ("GG".toList).length)
                "GG".toList ≤ ((0 : ℕ) : WithTop ℕ)) ∧
      (∀ j', i + ("AA".toList).length ≤ j' → j' < j →
        ¬ hamming_distance (sliceN "TTAAGGCCGG".toList j' ("GG".toList).length)
            "GG".toList ≤ ((0 : ℕ) : WithTop ℕ)) :=
  (match_flanks_first_pair 0 "TTAAGGCCGG".toList "AA".toList "GG".toList).2 4 4
    (by decide)

theorem round_half_even_le (x : ℚ) : (round_half_even x : ℚ) ≤ x + 1/2 := by
  have h0 : (⌊x⌋ : ℚ) ≤ x := Int.floor_le x
  rw [round_half_even]
  split_ifs with h1 h2 h3
  · push_cast
    linarith
  · push_cast
    linarith
  · push_cast
    linarith
  · push_cast
    linarith [not_lt.mp h1]

theorem round_half_even_tie (x : ℚ) (h : (round_half_even x : ℚ) = x + 1/2) :
    x - ⌊x⌋ = 1/2 ∧ ⌊x⌋ % 2 = 1 := by
  have h0 : (⌊x⌋ : ℚ) ≤ x := Int.floor_le x
  rw [round_half_even] at h
  split_ifs at h with h1 h2 h3
  · push_cast at h
    linarith
  · push_cast at h
    linarith
  · push_cast at h
    linarith
  · refine ⟨by linarith [not_lt.mp h1, not_lt.mp h2], by omega⟩

theorem round2_sum_le (ni nd no : ℕ) (ht : ni + nd + no ≠ 0) :
    round2 ((ni : ℚ) / ((ni + nd + no : ℕ) : ℚ) * 100) +
      round2 ((nd : ℚ) / ((ni + nd + no : ℕ) : ℚ) * 100) ≤ 100 := by
  set t : ℚ := ((ni + nd + no : ℕ) : ℚ) with htdef
  have ht0 : 0 < t := by
    rw [htdef]
    exact_mod_cast Nat.pos_of_ne_zero ht
  have hsum : (ni : ℚ) / t * 100 * 100 + (nd : ℚ) / t * 100 * 100 ≤ 10000 := by
    have hle : ((ni : ℚ) + nd) ≤ t := by
      rw [htdef]
      push_cast
      linarith [Nat.cast_nonneg (α := ℚ) no]
    have hexp : (ni : ℚ) / t * 100 * 100 + (nd : ℚ) / t * 100 * 100 =
        ((ni : ℚ) + nd) * 10000 / t := by
      field_simp
      ring
    rw [hexp, div_le_iff ht0]
    nlinarith
  have hA := round_half_even_le ((ni : ℚ) / t * 100 * 100)
  have hB := round_half_even_le ((nd : ℚ) / t * 100 * 100)
  have hAB : round_half_even ((ni : ℚ) / t * 100 * 100) +
      round_half_even ((nd : ℚ) / t * 100 * 100) ≤ 10000 := by
    by_contra hcon
    push_neg at hcon
    have hAB1 : (round_half_even ((ni : ℚ) / t * 100 * 100) : ℚ) +
        round_half_even ((nd : ℚ) / t * 100 * 100) ≤ 10001 := by linarith
    have hABint : round_half_even ((ni : ℚ) / t * 100 * 100) +
        round_half_even ((nd : ℚ) / t * 100 * 100) = 10001 := by
      have h2 : round_half_even ((ni : ℚ) / t * 100 * 100) +
          round_half_even ((nd : ℚ) / t * 100 * 100) ≤ 10001 := by
        exact_mod_cast hAB1
      omega
    have hcast : (round_half_even ((ni : ℚ) / t * 100 * 100) : ℚ) +
        round_half_even ((nd : ℚ) / t * 100 * 100) = 10001 := by
      exact_mod_cast hABint
    have e1 : (round_half_even ((ni : ℚ) / t * 100 * 100) : ℚ) =
        (ni : ℚ) / t * 100 * 100 + 1/2 := by linarith
    have e2 : (round_half_even ((nd : ℚ) / t * 100 * 100) : ℚ) =
        (nd : ℚ) / t * 100 * 100 + 1/2 := by linarith
    obtain ⟨f1a, f1b⟩ := round_half_even_tie _ e1
    obtain ⟨f2a, f2b⟩ := round_half_even_tie _ e2
    have hx12 : (ni : ℚ) / t * 100 * 100 + (nd : ℚ) / t * 100 * 100 = 10000 := by
      linarith
    have hfl : (⌊(ni : ℚ) / t * 100 * 100⌋ : ℚ) + ⌊(nd : ℚ) / t * 100 * 100⌋ =
        9999 := by linarith
    have hflz : ⌊(ni : ℚ) / t * 100 * 100⌋ + ⌊(nd : ℚ) / t * 100 * 100⌋ = 9999 := by
      exact_mod_cast hfl
    omega
  rw [round2, round2, div_add_div_same, div_le_iff (by norm_num : (0:ℚ) < 100)]
  have : (round_half_even ((ni : ℚ) / t * 100 * 100) : ℚ) +
      round_half_even ((nd : ℚ) / t * 100 * 100) ≤ 10000 := by
    exact_mod_cast hAB
  linarith

/-- Claim C7: after finalisation, `total = num_ins + num_del + num_other`
(excluding `num_skip`) underlies the percentages: both are 0 when `total = 0`,
otherwise `per_ins = round(100·num_ins/total, 2)` and likewise for `per_del`,
and their sum never exceeds 100. -/
theorem analyse_percentages (st : Stats) :
    (st.num_ins + st.num_del + st.num_other = 0 →
      (finalize_stats st).per_ins = 0 ∧ (finalize_stats st).per_del = 0) ∧
    (st.num_ins + st.num_del + st.num_other ≠ 0 →
      (finalize_stats st).per_ins =
        round2 (100 * (st.num_ins : ℚ) /
          ((st.num_ins + st.num_del + st.num_other : ℕ) : ℚ)) ∧
      (finalize_stats st).per_del =
        round2 (100 * (st.num_del : ℚ) /
          ((st.num_ins + st.num_del + st.num_other : ℕ) : ℚ))) ∧
    (finalize_stats st).per_ins + (finalize_stats st).per_del ≤ 100 := by
  refine ⟨?_, ?_, ?_⟩
  · intro h
    simp [finalize_stats, h]
  · intro h
    constructor
    · simp only [finalize_stats, if_neg h]
      congr 1
      ring
    · simp only [finalize_stats, if_neg h]
      congr 1
      ring
  · by_cases h : st.num_ins + st.num_del + st.num_other = 0
    · simp [finalize_stats, h]
    · simp only [finalize_stats, if_neg h]
      exact round2_sum_le st.num_ins st.num_del st.num_other h

/-- Witness for C7 at `num_ins = 1`, `num_del = 2`, `num_other = 0`:
percentages 33.33 and 66.67 with sum at most 100. -/
theorem analyse_percentages_witness :
    ((finalize_stats ex_stats).per_ins =
        round2 (100 * (ex_stats.num_ins : ℚ) /
          ((ex_stats.num_ins + ex_stats.num_del + ex_stats.num_other : ℕ) : ℚ)) ∧
      (finalize_stats ex_stats).per_del =
        round2 (100 * (ex_stats.num_del : ℚ) /
          ((ex_stats.num_ins + ex_stats.num_del + ex_stats.num_other : ℕ) : ℚ))) ∧
    (finalize_stats ex_stats).per_ins + (finalize_stats ex_stats).per_del ≤ 100 :=
  ⟨(analyse_percentages ex_stats).2.1 (by decide),
   (analyse_percentages ex_stats).2.2⟩

/-- Witness for C4 at a concrete insertion: aligning query `ACGT` to reference
`A-GT` inserts `C` after reference position 1. -/
theorem classify_aligned_spec_witness :
    (classify_aligned initial_stats "ACGT".toList "A-GT".toList).num_ins =
        initial_stats.num_ins + 1 ∧
    (classify_aligned initial_stats "ACGT".toList "A-GT".toList).ins_pos
        (ins_key (("A-GT".toList).indexOf gapc)
          (spec_inserted_run "ACGT".toList "A-GT".toList)) =
      initial_stats.ins_pos
        (ins_key (("A-GT".toList).indexOf gapc)
          (spec_inserted_run "ACGT".toList "A-GT".toList)) + 1 :=
  ⟨((classify_aligned_spec initial_stats "ACGT".toList "A-GT".toList
      (by decide)).2.1 (by decide)).1,
   ((classify_aligned_spec initial_stats "ACGT".toList "A-GT".toList
      (by decide)).2.1 (by decide)).2.2.2.1⟩

end CrisprIndel
